import Mathlib

/-!
# TCP echo server (`main.go`): embedding and verification

The program has two functions, `main` (argument check, listener, accept loop)
and `handleConnection` (per-connection read loop, one final write, deferred
close).  Both are embedded as pure functions from the results the operating
system hands back (the outcome of `net.Listen`, of each `Accept`, of each
`Read`, of the `Write`) to the trace of operations the code performs.

A script of results that runs out stands for a call that never returns
(`Accept` or `Read` blocking for ever); the run is then reported as not
returned.
-/

namespace EchoServer

/-! ## Data model -/

/-- One octet, the element type of a Go `[]byte`. -/
abbrev Byte := Fin 256

/-- Go `error` values as the program distinguishes them: `io.EOF` against
everything else (compared with `err != io.EOF`). -/
inductive GoError
  | eof
  | other (msg : String)
  deriving DecidableEq, Repr

/-- The text `err.Error()` that `fmt.Println` prints for an error. -/
def GoError.message : GoError → String
  | .eof => "EOF"
  | .other m => m

/-- The outcome of one `c.Read(tmp)`: the bytes the call stored at the start
of the buffer (their number is the `n` the code discards) and the error. -/
structure ReadResult where
  data : List Byte
  err : Option GoError
  deriving DecidableEq, Repr

/-- A connection as the handler sees it: the peer address, the outcomes of the
successive `Read` calls, and the error of the `Write` call (`none` for nil). -/
structure Conn where
  remoteAddr : String
  reads : List ReadResult
  writeErr : Option GoError
  deriving DecidableEq, Repr

/-- What `handleConnection` does, in program order: a line on standard output,
or an operation on the connection. -/
inductive Event
  | print (s : String)
  | read (r : ReadResult)
  | write (p : List Byte) (err : Option GoError)
  | close
  deriving DecidableEq, Repr

/-- The size passed to both `make([]byte, 4096)` calls. -/
def chunkSize : Nat := 4096

/-- Value of `make([]byte, 4096)`: a slice of LENGTH 4096, all zero. -/
def zeroChunk : List Byte := List.replicate chunkSize 0

/-- Effect of `c.Read(tmp)` on `tmp`: the delivered bytes overwrite the
start of the buffer, the rest of the buffer is left as it was.  A reader never
stores more than `len(tmp)` bytes, so the delivered bytes are cut there. -/
def readInto (tmp data : List Byte) : List Byte :=
  data.take tmp.length ++ tmp.drop data.length

/-- Lines 68-70, `if err != io.EOF { fmt.Println("read error:", err) }`: the
error line, absent for `io.EOF`. -/
def errorLine (e : GoError) : List Event :=
  if e ≠ GoError.eof then [Event.print ("read error: " ++ e.message ++ "\n")] else []

/-- Result of the `for` loop of `handleConnection`. -/
structure LoopResult where
  trace : List Event
  packet : List Byte
  returned : Bool
  deriving DecidableEq, Repr

/-- The `for { ... }` loop of `handleConnection` (lines 63-75), run against
the outcomes of the successive reads, from the current `tmp` and `packet`.
On an error the loop prints it unless it is `io.EOF` and breaks; otherwise it
executes `packet = append(packet, tmp...)` with the WHOLE of `tmp`. -/
def readLoop : List ReadResult → List Byte → List Byte → LoopResult
  | [], _, packet => ⟨[], packet, false⟩
  | r :: rest, tmp, packet =>
    match r.err with
    | some e =>
      ⟨Event.read r :: errorLine e, packet, true⟩
    | none =>
      let tmp1 := readInto tmp r.data
      let res := readLoop rest tmp1 (packet ++ tmp1)
      ⟨Event.read r :: res.trace, res.packet, res.returned⟩

/-- A run of `handleConnection`: the operations performed and whether the
function returned (it does not when a `Read` blocks for ever). -/
structure Run where
  trace : List Event
  returned : Bool
  deriving DecidableEq, Repr

/-- The function `handleConnection` (lines 50-79): print the peer address,
allocate `packet` and `tmp`, run the read loop, write `packet` once, ignoring
the result of the write, and run the deferred `c.Close()`. -/
def handleConnection (c : Conn) : Run :=
  let serving := Event.print ("Serving " ++ c.remoteAddr ++ "\n")
  let res := readLoop c.reads zeroChunk zeroChunk
  if res.returned then
    ⟨serving :: (res.trace ++ [Event.write res.packet c.writeErr, Event.close]), true⟩
  else
    ⟨serving :: res.trace, false⟩

/-- The arguments of the `Write` calls in a trace, in order. -/
def writes : List Event → List (List Byte)
  | [] => []
  | Event.write p _ :: t => p :: writes t
  | _ :: t => writes t

/-- The number of `Read` calls in a trace. -/
def readCount : List Event → Nat
  | [] => 0
  | Event.read _ :: t => readCount t + 1
  | _ :: t => readCount t

/-- A read that succeeded (nil error) and delivered `d`. -/
def okRead (d : List Byte) : ReadResult := ⟨d, none⟩

/-- A read that returned the error `e`, having delivered `d`. -/
def errRead (d : List Byte) (e : GoError) : ReadResult := ⟨d, some e⟩

/-- The content of `packet` after a series of successful reads: each
iteration appends the whole of `tmp` as it stands after that read. -/
def packetAfter : List Byte → List Byte → List (List Byte) → List Byte
  | _, packet, [] => packet
  | tmp, packet, d :: ds => packetAfter (readInto tmp d) (packet ++ readInto tmp d) ds

/-! ## `main` -/

/-- What the operating system answers to `main`: the error of `net.Listen`
(`none` for nil) and the outcomes of the successive `Accept` calls. -/
structure Env where
  listenErr : Option GoError
  accepts : List (Except GoError Conn)

/-- What `main` does, in program order. -/
inductive MainEvent
  | print (s : String)
  | listen (network address : String)
  | accept (r : Except GoError Conn)
  | go (c : Conn)
  | closeListener

/-- How `main` ends: it returns, it panics, or it blocks in `Accept`. -/
inductive Exit
  | returned
  | panicked (e : GoError)
  | blocked
  deriving DecidableEq, Repr

/-- The accept loop of `main` (lines 38-44): a failed `Accept` panics, a
successful one starts `go handleConnection(c)` and loops. -/
def acceptLoop : List (Except GoError Conn) → List MainEvent × Exit
  | [] => ([], Exit.blocked)
  | Except.error e :: _ => ([MainEvent.accept (Except.error e)], Exit.panicked e)
  | Except.ok c :: rest =>
    let r := acceptLoop rest
    (MainEvent.accept (Except.ok c) :: MainEvent.go c :: r.1, r.2)

/-- The function `main` (lines 13-45) on the argument vector `os.Args`.  The
deferred `l.Close()` is registered after a successful `Listen`, so it runs
when the accept loop panics and not when `Listen` itself fails. -/
def main (arguments : List String) (env : Env) : List MainEvent × Exit :=
  if h : arguments.length < 2 then
    ([MainEvent.print "Please provide a port number.\n"], Exit.returned)
  else
    let port := ":" ++ arguments[1]
    match env.listenErr with
    | some e => ([MainEvent.listen "tcp4" port], Exit.panicked e)
    | none =>
      let r := acceptLoop env.accepts
      let deferred := match r.2 with
        | Exit.blocked => []
        | _ => [MainEvent.closeListener]
      (MainEvent.listen "tcp4" port ::
        MainEvent.print ("Server is listening at port " ++ port ++ "\n") ::
        (r.1 ++ deferred), r.2)

/-! ## Two handlers running concurrently

`main` starts one goroutine per accepted connection.  A handler touches only
its own connection and its own local `packet` and `tmp`; the one thing two
handlers share is standard output.  The machine below runs one handler one
operation at a time, and a system of two handlers under a schedule that says,
at each moment, which of the two takes the next step. -/

/-- Where a handler stands in `handleConnection`. -/
inductive PC
  | start
  | loop
  | report (e : GoError)
  | write
  | close
  | done
  deriving DecidableEq, Repr

/-- The state of one running `handleConnection`: its position, its
connection, the read outcomes still to come, its two local buffers and the
operations it has performed so far. -/
structure Handler where
  pc : PC
  conn : Conn
  pending : List ReadResult
  tmp : List Byte
  packet : List Byte
  trace : List Event
  deriving DecidableEq, Repr

/-- A handler about to start on connection `c`. -/
def Handler.init (c : Conn) : Handler :=
  ⟨PC.start, c, c.reads, [], [], []⟩

/-- One operation of a handler, with the lines it sends to standard output.
A handler waiting in `Read` with nothing to come, or one that has finished,
stays as it is. -/
def Handler.step (h : Handler) : Handler × List String :=
  match h.pc with
  | PC.start =>
    let s := "Serving " ++ h.conn.remoteAddr ++ "\n"
    ({ h with pc := PC.loop, tmp := zeroChunk, packet := zeroChunk,
              trace := h.trace ++ [Event.print s] }, [s])
  | PC.loop =>
    match h.pending with
    | [] => (h, [])
    | r :: rest =>
      match r.err with
      | some e =>
        ({ h with pc := (if e ≠ GoError.eof then PC.report e else PC.write),
                  pending := rest, trace := h.trace ++ [Event.read r] }, [])
      | none =>
        let tmp1 := readInto h.tmp r.data
        ({ h with pending := rest, tmp := tmp1, packet := h.packet ++ tmp1,
                  trace := h.trace ++ [Event.read r] }, [])
  | PC.report e =>
    let s := "read error: " ++ e.message ++ "\n"
    ({ h with pc := PC.write, trace := h.trace ++ [Event.print s] }, [s])
  | PC.write =>
    ({ h with pc := PC.close,
              trace := h.trace ++ [Event.write h.packet h.conn.writeErr] }, [])
  | PC.close =>
    ({ h with pc := PC.done, trace := h.trace ++ [Event.close] }, [])
  | PC.done => (h, [])

/-- A handler running alone for `n` steps. -/
def Handler.steps : Nat → Handler → Handler
  | 0, h => h
  | n + 1, h => Handler.steps n h.step.1

/-- Two handlers and the standard output they share. -/
structure System where
  first : Handler
  second : Handler
  stdout : List String
  deriving DecidableEq, Repr

/-- Two handlers about to start, on connections `c1` and `c2`. -/
def System.init (c1 c2 : Conn) : System :=
  ⟨Handler.init c1, Handler.init c2, []⟩

/-- One step of the system: the chosen handler performs one operation. -/
def System.step (s : System) (pickFirst : Bool) : System :=
  if pickFirst then
    ⟨s.first.step.1, s.second, s.stdout ++ s.first.step.2⟩
  else
    ⟨s.first, s.second.step.1, s.stdout ++ s.second.step.2⟩

/-- The system run under a schedule. -/
def System.run (s : System) : List Bool → System
  | [] => s
  | b :: bs => System.run (s.step b) bs

/-- The content of `tmp` before the first read and after each of a series of
successful reads. -/
def tmpStates : List Byte → List (List Byte) → List (List Byte)
  | tmp, [] => [tmp]
  | tmp, d :: ds => tmp :: tmpStates (readInto tmp d) ds

/-- What a handler standing at the head of the loop still has to do. -/
def tailTrace (script : List ReadResult) (tmp packet : List Byte)
    (we : Option GoError) : List Event :=
  if (readLoop script tmp packet).returned then
    (readLoop script tmp packet).trace ++
      [Event.write (readLoop script tmp packet).packet we, Event.close]
  else
    (readLoop script tmp packet).trace

/-! ## Lemmas on the read loop -/

theorem readInto_length (tmp data : List Byte) :
    (readInto tmp data).length = tmp.length := by
  simp only [readInto, List.length_append, List.length_take, List.length_drop]
  omega

theorem readInto_of_le (tmp data : List Byte) (h : data.length ≤ tmp.length) :
    readInto tmp data = data ++ tmp.drop data.length := by
  simp [readInto, List.take_of_length_le h]

theorem readInto_replicate_one (n : Nat) (z b : Byte) :
    readInto (List.replicate (n + 1) z) [b] = b :: List.replicate n z := by
  simp [readInto]

theorem readInto_zeroChunk_one (b : Byte) :
    readInto zeroChunk [b] = b :: List.replicate 4095 0 :=
  readInto_replicate_one 4095 0 b

theorem zeroChunk_length : zeroChunk.length = 4096 := by
  simp only [zeroChunk, chunkSize, List.length_replicate]

theorem readLoop_ok (d : List Byte) (rest : List ReadResult) (tmp packet : List Byte) :
    readLoop (okRead d :: rest) tmp packet =
      ⟨Event.read (okRead d) ::
          (readLoop rest (readInto tmp d) (packet ++ readInto tmp d)).trace,
        (readLoop rest (readInto tmp d) (packet ++ readInto tmp d)).packet,
        (readLoop rest (readInto tmp d) (packet ++ readInto tmp d)).returned⟩ := rfl

theorem readLoop_err (d : List Byte) (e : GoError) (rest : List ReadResult)
    (tmp packet : List Byte) :
    readLoop (errRead d e :: rest) tmp packet =
      ⟨Event.read (errRead d e) :: errorLine e, packet, true⟩ := rfl

theorem readLoop_script (ds : List (List Byte)) (d : List Byte) (e : GoError)
    (rest : List ReadResult) (tmp packet : List Byte) :
    readLoop (ds.map okRead ++ errRead d e :: rest) tmp packet =
      ⟨ds.map (fun x => Event.read (okRead x)) ++ Event.read (errRead d e) :: errorLine e,
        packetAfter tmp packet ds, true⟩ := by
  induction ds generalizing tmp packet with
  | nil => simp [readLoop_err, packetAfter]
  | cons x xs ih =>
    rw [List.map_cons, List.cons_append, readLoop_ok, ih]
    simp [packetAfter]

theorem handleConnection_script (addr : String) (ds : List (List Byte)) (d : List Byte)
    (e : GoError) (rest : List ReadResult) (we : Option GoError) :
    handleConnection ⟨addr, ds.map okRead ++ errRead d e :: rest, we⟩ =
      ⟨Event.print ("Serving " ++ addr ++ "\n") ::
        ((ds.map (fun x => Event.read (okRead x)) ++ Event.read (errRead d e) :: errorLine e) ++
          [Event.write (packetAfter zeroChunk zeroChunk ds) we, Event.close]), true⟩ := by
  simp only [handleConnection, readLoop_script]
  simp

theorem script_split (reads : List ReadResult) (h : ∃ r ∈ reads, r.err ≠ none) :
    ∃ (ds : List (List Byte)) (d : List Byte) (e : GoError) (rest : List ReadResult),
      reads = ds.map okRead ++ errRead d e :: rest := by
  induction reads with
  | nil => simp at h
  | cons r rs ih =>
    rcases r with ⟨d, err⟩
    cases err with
    | some e => exact ⟨[], d, e, rs, rfl⟩
    | none =>
      have h2 : ∃ r ∈ rs, r.err ≠ none := by
        rcases h with ⟨r, hr, hne⟩
        rcases List.mem_cons.mp hr with h1 | h1
        · subst h1; simp at hne
        · exact ⟨r, h1, hne⟩
      rcases ih h2 with ⟨ds, d2, e, rest, heq⟩
      exact ⟨d :: ds, d2, e, rest, by simp [heq, okRead]⟩

theorem packetAfter_length (tmp packet : List Byte) (ds : List (List Byte)) :
    (packetAfter tmp packet ds).length = packet.length + ds.length * tmp.length := by
  induction ds generalizing tmp packet with
  | nil => simp [packetAfter]
  | cons x xs ih =>
    simp only [packetAfter, ih, List.length_append, readInto_length, List.length_cons]
    ring

theorem packetAfter_eq (tmp packet : List Byte) (ds : List (List Byte)) :
    packetAfter tmp packet ds = packet ++ (tmpStates tmp ds).tail.flatten := by
  induction ds generalizing tmp packet with
  | nil => simp [packetAfter, tmpStates]
  | cons x xs ih =>
    rw [packetAfter, ih]
    cases xs with
    | nil => simp [tmpStates]
    | cons y ys => simp [tmpStates]

theorem tmpStates_length (tmp : List Byte) (ds : List (List Byte)) :
    (tmpStates tmp ds).length = ds.length + 1 := by
  induction ds generalizing tmp with
  | nil => simp [tmpStates]
  | cons x xs ih => simp [tmpStates, ih]

theorem tmpStates_mem_length (tmp : List Byte) (ds : List (List Byte)) :
    ∀ t ∈ tmpStates tmp ds, t.length = tmp.length := by
  induction ds generalizing tmp with
  | nil => simp [tmpStates]
  | cons x xs ih =>
    intro t ht
    simp only [tmpStates, List.mem_cons] at ht
    rcases ht with h | h
    · rw [h]
    · rw [ih _ t h, readInto_length]

theorem tmpStates_succ (tmp : List Byte) (ds : List (List Byte)) (i : Nat)
    (hi : i < ds.length) :
    (tmpStates tmp ds).getD (i + 1) [] =
      readInto ((tmpStates tmp ds).getD i []) (ds.getD i []) := by
  induction ds generalizing tmp i with
  | nil => simp at hi
  | cons x xs ih =>
    cases i with
    | zero =>
      cases xs with
      | nil => simp [tmpStates]
      | cons y ys => simp [tmpStates]
    | succ j =>
      have hj : j < xs.length := by simpa using hi
      have := ih (readInto tmp x) j hj
      simpa [tmpStates] using this

/-! ## Lemmas on the stepwise handler -/

theorem steps_done (n : Nat) (c : Conn) (p : List ReadResult) (tmp packet : List Byte)
    (T : List Event) :
    Handler.steps n ⟨PC.done, c, p, tmp, packet, T⟩ = ⟨PC.done, c, p, tmp, packet, T⟩ := by
  induction n with
  | zero => rfl
  | succ k ih => simpa [Handler.steps, Handler.step] using ih

theorem steps_close (n : Nat) (c : Conn) (p : List ReadResult) (tmp packet : List Byte)
    (T : List Event) :
    (Handler.steps n ⟨PC.close, c, p, tmp, packet, T⟩).trace = T ++ List.take n [Event.close] := by
  cases n with
  | zero => simp [Handler.steps]
  | succ k => simp [Handler.steps, Handler.step, steps_done]

theorem steps_write (n : Nat) (c : Conn) (p : List ReadResult) (tmp packet : List Byte)
    (T : List Event) :
    (Handler.steps n ⟨PC.write, c, p, tmp, packet, T⟩).trace =
      T ++ List.take n [Event.write packet c.writeErr, Event.close] := by
  cases n with
  | zero => simp [Handler.steps]
  | succ k => simp [Handler.steps, Handler.step, steps_close]

theorem steps_report (n : Nat) (e : GoError) (c : Conn) (p : List ReadResult)
    (tmp packet : List Byte) (T : List Event) :
    (Handler.steps n ⟨PC.report e, c, p, tmp, packet, T⟩).trace =
      T ++ List.take n [Event.print ("read error: " ++ e.message ++ "\n"),
        Event.write packet c.writeErr, Event.close] := by
  cases n with
  | zero => simp [Handler.steps]
  | succ k => simp [Handler.steps, Handler.step, steps_write]

theorem steps_blocked (n : Nat) (c : Conn) (tmp packet : List Byte) (T : List Event) :
    Handler.steps n ⟨PC.loop, c, [], tmp, packet, T⟩ = ⟨PC.loop, c, [], tmp, packet, T⟩ := by
  induction n with
  | zero => rfl
  | succ k ih => simpa [Handler.steps, Handler.step] using ih

theorem steps_loop (script : List ReadResult) (n : Nat) (c : Conn) (tmp packet : List Byte)
    (T : List Event) :
    (Handler.steps n ⟨PC.loop, c, script, tmp, packet, T⟩).trace =
      T ++ List.take n (tailTrace script tmp packet c.writeErr) := by
  induction script generalizing n tmp packet T with
  | nil => simp [steps_blocked, tailTrace, readLoop]
  | cons r rs ih =>
    cases n with
    | zero => simp [Handler.steps]
    | succ k =>
      rcases r with ⟨d, err⟩
      cases err with
      | none =>
        have h := ih k (readInto tmp d) (packet ++ readInto tmp d) (T ++ [Event.read ⟨d, none⟩])
        simp only [Handler.steps, Handler.step]
        rw [h]
        simp only [tailTrace, readLoop]
        split <;> simp
      | some e =>
        simp only [Handler.steps, Handler.step]
        by_cases he : e = GoError.eof
        · subst he
          simp [steps_write, tailTrace, readLoop, errorLine]
        · simp [he, steps_report, tailTrace, readLoop, errorLine]

theorem steps_init (n : Nat) (c : Conn) :
    (Handler.steps n (Handler.init c)).trace = List.take n (handleConnection c).trace := by
  cases n with
  | zero => simp [Handler.steps, Handler.init]
  | succ k =>
    simp only [Handler.steps, Handler.step, Handler.init, steps_loop]
    simp only [tailTrace, handleConnection]
    split <;> simp

theorem run_first (s : System) (sched : List Bool) :
    (s.run sched).first = Handler.steps (sched.count true) s.first := by
  induction sched generalizing s with
  | nil => rfl
  | cons b bs ih =>
    cases b <;> simp [System.run, System.step, ih, Handler.steps]

theorem run_second (s : System) (sched : List Bool) :
    (s.run sched).second = Handler.steps (sched.count false) s.second := by
  induction sched generalizing s with
  | nil => rfl
  | cons b bs ih =>
    cases b <;> simp [System.run, System.step, ih, Handler.steps]

/-! ## Lemmas on traces -/

theorem writes_append (l1 l2 : List Event) : writes (l1 ++ l2) = writes l1 ++ writes l2 := by
  induction l1 with
  | nil => rfl
  | cons ev t ih => cases ev <;> simp [writes, ih]

theorem mem_writes_take (p : List Byte) (n : Nat) (l : List Event)
    (h : p ∈ writes (l.take n)) : p ∈ writes l := by
  induction l generalizing n with
  | nil => simpa using h
  | cons ev t ih =>
    cases n with
    | zero => simp [writes] at h
    | succ k =>
      cases ev with
      | write q err =>
        simp only [List.take_succ_cons, writes, List.mem_cons] at h ⊢
        rcases h with h | h
        · exact Or.inl h
        · exact Or.inr (ih k h)
      | print s => simpa [writes] using ih k (by simpa [writes] using h)
      | read r => simpa [writes] using ih k (by simpa [writes] using h)
      | close => simpa [writes] using ih k (by simpa [writes] using h)

theorem writes_reads (ds : List (List Byte)) :
    writes (ds.map (fun x => Event.read (okRead x))) = [] := by
  induction ds with
  | nil => rfl
  | cons x xs ih => simpa [writes] using ih

theorem writes_errorLine (e : GoError) : writes (errorLine e) = [] := by
  unfold errorLine
  split <;> rfl

theorem writes_script (addr : String) (ds : List (List Byte)) (d : List Byte)
    (e : GoError) (rest : List ReadResult) (we : Option GoError) :
    writes (handleConnection ⟨addr, ds.map okRead ++ errRead d e :: rest, we⟩).trace =
      [packetAfter zeroChunk zeroChunk ds] := by
  rw [handleConnection_script]
  simp [writes, writes_append, writes_reads, writes_errorLine]

theorem count_close_reads (ds : List (List Byte)) :
    List.count Event.close (ds.map (fun x => Event.read (okRead x))) = 0 := by
  induction ds with
  | nil => rfl
  | cons x xs ih => simpa [List.count_cons] using ih

theorem count_close_errorLine (e : GoError) : List.count Event.close (errorLine e) = 0 := by
  unfold errorLine
  split <;> simp [List.count_cons]

theorem acceptLoop_script (cs : List Conn) (e : GoError) (rest : List (Except GoError Conn)) :
    acceptLoop (cs.map Except.ok ++ Except.error e :: rest) =
      (cs.flatMap (fun c => [MainEvent.accept (Except.ok c), MainEvent.go c]) ++
        [MainEvent.accept (Except.error e)], Exit.panicked e) := by
  induction cs with
  | nil => simp [acceptLoop]
  | cons c cs ih => simp [acceptLoop, ih]

/-! ## The claims -/

/-- C1 (echo identity), evaluated on the code: a peer that sends the single
byte 65 and closes is sent 8192 bytes, 4096 zeros, then 65, then 4095 zeros,
and not the one byte it sent. -/
theorem echo_one_byte_writes_8192 :
    writes (handleConnection
        ⟨"10.0.0.1:5000", [okRead [65], errRead [] GoError.eof], none⟩).trace =
      [List.replicate 4096 0 ++ (65 :: List.replicate 4095 0)] ∧
    writes (handleConnection
        ⟨"10.0.0.1:5000", [okRead [65], errRead [] GoError.eof], none⟩).trace ≠ [[65]] := by
  have h := writes_script "10.0.0.1:5000" [[65]] [] GoError.eof [] none
  simp only [List.map_cons, List.map_nil, List.nil_append, List.singleton_append] at h
  have hp : packetAfter zeroChunk zeroChunk [[65]] =
      List.replicate 4096 0 ++ (65 :: List.replicate 4095 0) := by
    simp only [packetAfter, readInto_zeroChunk_one]
    rfl
  rw [h, hp]
  refine ⟨rfl, ?_⟩
  intro hc
  have hl := congrArg (fun l => l.map List.length) hc
  simp only [List.map_cons, List.map_nil, List.length_append, List.length_replicate,
    List.length_cons, List.length_nil, List.cons.injEq, and_true] at hl
  omega

/-- C2 (early disconnect), evaluated on the code: when the first read returns
`io.EOF` the handler prints no read error and closes the connection, but the
one write it issues carries 4096 zero bytes, not zero bytes. -/
theorem early_disconnect_writes_zero_chunk (addr : String) (we : Option GoError) :
    handleConnection ⟨addr, [errRead [] GoError.eof], we⟩ =
      ⟨[Event.print ("Serving " ++ addr ++ "\n"), Event.read (errRead [] GoError.eof),
        Event.write (List.replicate 4096 0) we, Event.close], true⟩ ∧
    (List.replicate 4096 (0 : Byte)).length = 4096 := by
  have h := handleConnection_script addr [] [] GoError.eof [] we
  simp only [List.map_nil, List.nil_append, errorLine, packetAfter, ne_eq, not_true_eq_false,
    if_false, List.cons_append] at h
  exact ⟨h, List.length_replicate _ _⟩

/-- C3 (chunked input reassembly), evaluated on the code: the two bytes 1, 2
delivered by one read are answered with 8192 bytes, delivered by two reads of
one byte each with 12288 bytes, so the bytes written depend on how the reads
are cut. -/
theorem split_changes_written_length :
    (writes (handleConnection
        ⟨"10.0.0.1:5000", [okRead [1, 2], errRead [] GoError.eof], none⟩).trace).map
          List.length = [8192] ∧
    (writes (handleConnection
        ⟨"10.0.0.1:5000", [okRead [1], okRead [2], errRead [] GoError.eof], none⟩).trace).map
          List.length = [12288] ∧
    writes (handleConnection
        ⟨"10.0.0.1:5000", [okRead [1, 2], errRead [] GoError.eof], none⟩).trace ≠
      writes (handleConnection
        ⟨"10.0.0.1:5000", [okRead [1], okRead [2], errRead [] GoError.eof], none⟩).trace := by
  have h1 := writes_script "10.0.0.1:5000" [[1, 2]] [] GoError.eof [] none
  have h2 := writes_script "10.0.0.1:5000" [[1], [2]] [] GoError.eof [] none
  simp only [List.map_cons, List.map_nil, List.nil_append, List.singleton_append,
    List.cons_append] at h1 h2
  have l1 : (packetAfter zeroChunk zeroChunk [[1, 2]]).length = 8192 := by
    rw [packetAfter_length, zeroChunk_length]; rfl
  have l2 : (packetAfter zeroChunk zeroChunk [[1], [2]]).length = 12288 := by
    rw [packetAfter_length, zeroChunk_length]; rfl
  rw [h1, h2]
  refine ⟨by simp only [List.map_cons, List.map_nil, l1],
    by simp only [List.map_cons, List.map_nil, l2], ?_⟩
  intro hc
  have hl := congrArg (fun l => l.map List.length) hc
  simp only [List.map_cons, List.map_nil, l1, l2, List.cons.injEq, and_true] at hl
  omega

/-- C4 (per-connection read error): when the reads are some successful ones
followed by one that returns the error `e`, the handler returns, and what it
does is exactly: print the peer address, issue those reads and no further one
(the outcomes after the failing read are never asked for), print the error
line unless `e` is `io.EOF`, write the buffer accumulated by the successful
reads, close. -/
theorem read_error_ends_loop (addr : String) (ds : List (List Byte)) (d : List Byte)
    (e : GoError) (rest : List ReadResult) (we : Option GoError) :
    handleConnection ⟨addr, ds.map okRead ++ errRead d e :: rest, we⟩ =
      ⟨[Event.print ("Serving " ++ addr ++ "\n")] ++
        ds.map (fun x => Event.read (okRead x)) ++
        [Event.read (errRead d e)] ++
        (if e = GoError.eof then []
          else [Event.print ("read error: " ++ e.message ++ "\n")]) ++
        [Event.write (packetAfter zeroChunk zeroChunk ds) we, Event.close], true⟩ ∧
    readCount (handleConnection ⟨addr, ds.map okRead ++ errRead d e :: rest, we⟩).trace =
      ds.length + 1 := by
  rw [handleConnection_script]
  constructor
  · by_cases he : e = GoError.eof <;> simp [errorLine, he]
  · have hr : ∀ (l : List (List Byte)) (t : List Event),
        readCount (l.map (fun x => Event.read (okRead x)) ++ t) = l.length + readCount t := by
      intro l t
      induction l with
      | nil => simp
      | cons x xs ih => simp [readCount, ih]; omega
    simp only [readCount, hr, List.cons_append]
    by_cases he : e = GoError.eof <;> simp [errorLine, he, readCount, hr]

/-- C5 (close on every exit path): whenever some read of the connection
returns an error (end-of-stream or any other), and whatever the outcome of
the write, the handler returns, closes the connection exactly once, and the
close is the last operation of its trace. -/
theorem close_once_and_last (c : Conn) (h : ∃ r ∈ c.reads, r.err ≠ none) :
    (handleConnection c).returned = true ∧
    List.count Event.close (handleConnection c).trace = 1 ∧
    (handleConnection c).trace.getLast? = some Event.close := by
  obtain ⟨ds, d, e, rest, hs⟩ := script_split c.reads h
  have hc : c = ⟨c.remoteAddr, ds.map okRead ++ errRead d e :: rest, c.writeErr⟩ := by
    rw [← hs]
  rw [hc, handleConnection_script]
  refine ⟨rfl, ?_, ?_⟩
  · simp [List.count_cons, List.count_append, count_close_reads, count_close_errorLine]
  · have hshape : Event.print ("Serving " ++ c.remoteAddr ++ "\n") ::
        ((ds.map (fun x => Event.read (okRead x)) ++ Event.read (errRead d e) :: errorLine e) ++
          [Event.write (packetAfter zeroChunk zeroChunk ds) c.writeErr, Event.close]) =
        (Event.print ("Serving " ++ c.remoteAddr ++ "\n") ::
          ((ds.map (fun x => Event.read (okRead x)) ++ Event.read (errRead d e) :: errorLine e) ++
            [Event.write (packetAfter zeroChunk zeroChunk ds) c.writeErr])) ++ [Event.close] := by
      simp
    simp only [hshape, List.getLast?_concat]

/-- Witness for C5: a connection whose second read fails with a reset and
whose write fails too. -/
theorem close_once_and_last_witness :
    (handleConnection ⟨"10.0.0.1:5000",
        [okRead [1], errRead [] (GoError.other "connection reset by peer")],
        some (GoError.other "broken pipe")⟩).returned = true ∧
    List.count Event.close (handleConnection ⟨"10.0.0.1:5000",
        [okRead [1], errRead [] (GoError.other "connection reset by peer")],
        some (GoError.other "broken pipe")⟩).trace = 1 ∧
    (handleConnection ⟨"10.0.0.1:5000",
        [okRead [1], errRead [] (GoError.other "connection reset by peer")],
        some (GoError.other "broken pipe")⟩).trace.getLast? = some Event.close :=
  close_once_and_last _
    ⟨errRead [] (GoError.other "connection reset by peer"), by simp, by simp [errRead]⟩

/-- C6 (missing port argument): with fewer than 2 entries in the argument
vector `main` prints the usage line and returns, and that is all it does (no
listen, no accept); with an argument present the first thing `main` does is
`net.Listen("tcp4", ":" + arguments[1])`. -/
theorem main_port_argument (arguments : List String) (env : Env) :
    (arguments.length < 2 →
      main arguments env =
        ([MainEvent.print "Please provide a port number.\n"], Exit.returned)) ∧
    (∀ h : 1 < arguments.length,
      ∃ more, (main arguments env).1 =
        MainEvent.listen "tcp4" (":" ++ arguments[1]) :: more) := by
  constructor
  · intro h
    simp [main, h]
  · intro h
    have hn : ¬ arguments.length < 2 := by omega
    simp only [main, hn, dite_false]
    cases env.listenErr with
    | some e => exact ⟨[], rfl⟩
    | none => exact ⟨_, rfl⟩

/-- Witness for C6: the program started as `echo` alone, and as `echo 8080`. -/
theorem main_port_argument_witness :
    main ["echo"] ⟨none, []⟩ =
        ([MainEvent.print "Please provide a port number.\n"], Exit.returned) ∧
    ∃ more, (main ["echo", "8080"] ⟨none, []⟩).1 =
        MainEvent.listen "tcp4" (":" ++ "8080") :: more :=
  ⟨(main_port_argument ["echo"] ⟨none, []⟩).1 (by decide),
    (main_port_argument ["echo", "8080"] ⟨none, []⟩).2 (by decide)⟩

/-- C7 (listener failures are fatal): when `net.Listen` fails with `e`,
`main` panics with `e` having done nothing but the listen (no accept, no
handler); when the accepts succeed for the connections `cs` and the next one
fails with `e`, `main` has started one handler per connection of `cs`, and
after the failed accept it does nothing but run the deferred close of the
listener and panic with `e`: no further accept, no handler for that accept. -/
theorem listener_failures_fatal (prog port : String) (more : List String) (e : GoError) :
    (∀ accepts, main (prog :: port :: more) ⟨some e, accepts⟩ =
      ([MainEvent.listen "tcp4" (":" ++ port)], Exit.panicked e)) ∧
    (∀ (cs : List Conn) (rest : List (Except GoError Conn)),
      main (prog :: port :: more) ⟨none, cs.map Except.ok ++ Except.error e :: rest⟩ =
        ([MainEvent.listen "tcp4" (":" ++ port),
          MainEvent.print ("Server is listening at port " ++ (":" ++ port) ++ "\n")] ++
          cs.flatMap (fun c => [MainEvent.accept (Except.ok c), MainEvent.go c]) ++
          [MainEvent.accept (Except.error e), MainEvent.closeListener],
         Exit.panicked e)) := by
  constructor
  · intro accepts
    simp [main]
  · intro cs rest
    simp [main, acceptLoop_script]

/-- C8 (independence), evaluated on the code: two clients are served
concurrently, the first sends the single byte 65 and closes, the second sends
the single byte 66 and closes.  Under every interleaving of the two handlers,
what has been written to the first connection is never exactly its payload
`[65]`, and what has been written to the second never exactly `[66]`; under
the alternating schedule, when both handlers have finished, each client has
been sent 8192 bytes: 4096 zeros, then its byte, then 4095 zeros. -/
theorem concurrent_clients_get_padded_echo :
    (∀ sched : List Bool,
      writes (((System.init
          ⟨"10.0.0.1:5000", [okRead [65], errRead [] GoError.eof], none⟩
          ⟨"10.0.0.2:5000", [okRead [66], errRead [] GoError.eof], none⟩).run
            sched).first.trace) ≠ [[65]] ∧
      writes (((System.init
          ⟨"10.0.0.1:5000", [okRead [65], errRead [] GoError.eof], none⟩
          ⟨"10.0.0.2:5000", [okRead [66], errRead [] GoError.eof], none⟩).run
            sched).second.trace) ≠ [[66]]) ∧
    writes (((System.init
        ⟨"10.0.0.1:5000", [okRead [65], errRead [] GoError.eof], none⟩
        ⟨"10.0.0.2:5000", [okRead [66], errRead [] GoError.eof], none⟩).run
          [true, false, true, false, true, false, true, false, true, false]).first.trace) =
      [List.replicate 4096 0 ++ (65 :: List.replicate 4095 0)] ∧
    writes (((System.init
        ⟨"10.0.0.1:5000", [okRead [65], errRead [] GoError.eof], none⟩
        ⟨"10.0.0.2:5000", [okRead [66], errRead [] GoError.eof], none⟩).run
          [true, false, true, false, true, false, true, false, true, false]).second.trace) =
      [List.replicate 4096 0 ++ (66 :: List.replicate 4095 0)] := by
  have hA := handleConnection_script "10.0.0.1:5000" [[65]] [] GoError.eof [] none
  have hB := handleConnection_script "10.0.0.2:5000" [[66]] [] GoError.eof [] none
  simp only [List.map_cons, List.map_nil, List.nil_append, List.singleton_append,
    List.cons_append, errorLine, ne_eq, not_true_eq_false, if_false] at hA hB
  have pA : packetAfter zeroChunk zeroChunk [[65]] =
      List.replicate 4096 0 ++ (65 :: List.replicate 4095 0) := by
    simp only [packetAfter, readInto_zeroChunk_one]
    rfl
  have pB : packetAfter zeroChunk zeroChunk [[66]] =
      List.replicate 4096 0 ++ (66 :: List.replicate 4095 0) := by
    simp only [packetAfter, readInto_zeroChunk_one]
    rfl
  have lA : (packetAfter zeroChunk zeroChunk [[65]]).length = 8192 := by
    rw [packetAfter_length, zeroChunk_length]; rfl
  have lB : (packetAfter zeroChunk zeroChunk [[66]]).length = 8192 := by
    rw [packetAfter_length, zeroChunk_length]; rfl
  have tA : ∀ (c2 : Conn) (sched : List Bool),
      ((System.init ⟨"10.0.0.1:5000", [okRead [65], errRead [] GoError.eof], none⟩ c2).run
        sched).first.trace =
      List.take (sched.count true)
        (handleConnection ⟨"10.0.0.1:5000", [okRead [65], errRead [] GoError.eof], none⟩).trace := by
    intro c2 sched
    rw [run_first]
    exact steps_init _ _
  have tB : ∀ (c1 : Conn) (sched : List Bool),
      ((System.init c1 ⟨"10.0.0.2:5000", [okRead [66], errRead [] GoError.eof], none⟩).run
        sched).second.trace =
      List.take (sched.count false)
        (handleConnection ⟨"10.0.0.2:5000", [okRead [66], errRead [] GoError.eof], none⟩).trace := by
    intro c1 sched
    rw [run_second]
    exact steps_init _ _
  refine ⟨fun sched => ⟨?_, ?_⟩, ?_, ?_⟩
  · intro hc
    rw [tA] at hc
    have hm : ([65] : List Byte) ∈ writes (List.take (sched.count true)
        (handleConnection
          ⟨"10.0.0.1:5000", [okRead [65], errRead [] GoError.eof], none⟩).trace) := by
      rw [hc]; exact List.mem_singleton.mpr rfl
    have hw := mem_writes_take _ _ _ hm
    rw [hA] at hw
    simp only [writes, List.mem_singleton] at hw
    rw [← hw] at lA
    simp at lA
  · intro hc
    rw [tB] at hc
    have hm : ([66] : List Byte) ∈ writes (List.take (sched.count false)
        (handleConnection
          ⟨"10.0.0.2:5000", [okRead [66], errRead [] GoError.eof], none⟩).trace) := by
      rw [hc]; exact List.mem_singleton.mpr rfl
    have hw := mem_writes_take _ _ _ hm
    rw [hB] at hw
    simp only [writes, List.mem_singleton] at hw
    rw [← hw] at lB
    simp at lB
  · rw [tA, hA, ← pA]
    rfl
  · rw [tB, hB, ← pB]
    rfl

/-- C9 (append exactly the bytes read), evaluated on the code: after one
successful read of the single byte 7 the loop leaves in `packet` the 4096
initial zeros followed by the whole 4096-byte `tmp`, 8192 bytes in all, and
not the one byte read. -/
theorem loop_appends_whole_tmp :
    (readLoop [okRead [7], errRead [] GoError.eof] zeroChunk zeroChunk).packet =
      List.replicate 4096 0 ++ (7 :: List.replicate 4095 0) ∧
    (readLoop [okRead [7], errRead [] GoError.eof] zeroChunk zeroChunk).packet.length = 8192 ∧
    (readLoop [okRead [7], errRead [] GoError.eof] zeroChunk zeroChunk).packet ≠ [7] := by
  have h := readLoop_script [[7]] [] GoError.eof [] zeroChunk zeroChunk
  simp only [List.map_cons, List.map_nil, List.nil_append, List.singleton_append,
    List.cons_append] at h
  have hp : packetAfter zeroChunk zeroChunk [[7]] =
      List.replicate 4096 0 ++ (7 :: List.replicate 4095 0) := by
    simp only [packetAfter, readInto_zeroChunk_one]
    rfl
  rw [h]
  simp only [hp]
  have hl : (List.replicate 4096 (0 : Byte) ++ (7 :: List.replicate 4095 0)).length = 8192 := by
    simp only [List.length_append, List.length_replicate, List.length_cons]
  refine ⟨trivial, hl, ?_⟩
  intro hc
  rw [hc] at hl
  simp at hl

/-- C10 (exact shape of what is written): when the reads are `k` successful
ones, delivering `ds`, followed by one that returns an error, the handler
issues exactly one write.  Its argument is 4096 zero bytes followed by the
content of `tmp` after each successful read, in order; each such content is
4096 bytes long and consists of the bytes just read followed by what the
buffer held before that read from that position on; the length written is
`4096 * (k + 1)`; the bytes delivered together with the error, and whatever
would be read afterwards, have no part in it. -/
theorem written_shape (addr : String) (ds : List (List Byte)) (d : List Byte)
    (e : GoError) (rest : List ReadResult) (we : Option GoError)
    (hlen : ∀ x ∈ ds, x.length ≤ 4096) :
    writes (handleConnection ⟨addr, ds.map okRead ++ errRead d e :: rest, we⟩).trace =
      [List.replicate 4096 0 ++ (tmpStates (List.replicate 4096 0) ds).tail.flatten] ∧
    (List.replicate 4096 (0 : Byte) ++
      (tmpStates (List.replicate 4096 0) ds).tail.flatten).length = 4096 * (ds.length + 1) ∧
    (tmpStates (List.replicate 4096 0) ds).length = ds.length + 1 ∧
    (tmpStates (List.replicate 4096 0) ds).head? = some (List.replicate 4096 0) ∧
    (∀ t ∈ tmpStates (List.replicate 4096 0) ds, t.length = 4096) ∧
    (∀ i, i < ds.length →
      (tmpStates (List.replicate 4096 0) ds).getD (i + 1) [] =
        ds.getD i [] ++
          ((tmpStates (List.replicate 4096 0) ds).getD i []).drop (ds.getD i []).length) := by
  have hz : zeroChunk = List.replicate 4096 0 := rfl
  have hmem := tmpStates_mem_length zeroChunk ds
  rw [zeroChunk_length, hz] at hmem
  refine ⟨?_, ?_, tmpStates_length _ _, ?_, hmem, ?_⟩
  · rw [writes_script, packetAfter_eq, hz]
  · have h1 := packetAfter_length zeroChunk zeroChunk ds
    rw [packetAfter_eq, zeroChunk_length, hz] at h1
    rw [h1]; omega
  · cases ds <;> rfl
  · intro i hi
    rw [tmpStates_succ _ _ i hi]
    apply readInto_of_le
    have h1 : i < (tmpStates (List.replicate 4096 0) ds).length := by
      rw [tmpStates_length]; omega
    rw [List.getD_eq_getElem _ _ h1, List.getD_eq_getElem _ _ hi]
    rw [hmem _ (List.getElem_mem h1)]
    exact hlen _ (List.getElem_mem hi)

/-- Witness for C10: two successful reads, of 2 bytes and of 1 byte, then
end-of-stream. -/
theorem written_shape_witness :
    (∀ x ∈ ([[1, 2], [3]] : List (List Byte)), x.length ≤ 4096) ∧
    writes (handleConnection
        ⟨"10.0.0.1:5000", [[1, 2], [3]].map okRead ++ errRead [] GoError.eof :: [], none⟩).trace =
      [List.replicate 4096 0 ++ (tmpStates (List.replicate 4096 0) [[1, 2], [3]]).tail.flatten] :=
  ⟨by decide,
    (written_shape "10.0.0.1:5000" [[1, 2], [3]] [] GoError.eof [] none (by decide)).1⟩

end EchoServer
